import Mathlib

/-!
Verification of the constraint cascade engine (`src/constraints.py`) of the
decision_space_visualizer repository.

The engine is shallowly embedded as follows: a pandas DataFrame becomes a
`List Candidate`, float scores become rationals, the stable
`kind='mergesort'` sort becomes a stable insertion sort (a stable sort is
extensionally determined by its comparison key, so this computes the same
list), and the Python runtime errors that `apply_constraints` can raise (an
`IndexError` from `.iloc[-1]` on an empty frame, an `AssertionError` from
the inline invariant checks) become an `Except` error value.  The function
performs no input validation, which the error type makes visible: it has no
input-validation constructor.
-/

/-- Lexicographic comparison of character lists by code point, mirroring how
pandas compares Python strings when sorting the `id` column. -/
def charListLe : List Char → List Char → Bool
  | [], _ => true
  | _ :: _, [] => false
  | a :: as, b :: bs =>
    if a.toNat < b.toNat then true
    else if b.toNat < a.toNat then false
    else charListLe as bs

/-- Lexicographic order on strings by code point (the order pandas uses for
the `id` tie-break). -/
def strLe (a b : String) : Bool := charListLe a.data b.data

/-- Subtraction of rationals in a kernel-computable form; `ratSub_eq` below
proves it is ordinary subtraction.  It embeds the `cutoff_score - score`
float subtraction used for inclusion margins. -/
def ratSub (a b : ℚ) : ℚ := mkRat (a.num * b.den - b.num * a.den) (a.den * b.den)

/-- A scored candidate row: the columns of the DataFrame consumed by
`apply_constraints` (`id, urgency, confidence, impact, cost, case_type`
from `data.generate_candidates`, plus `logit` and `score` added by
`model.score_candidates`). -/
structure Candidate where
  id : String
  urgency : ℚ
  confidence : ℚ
  impact : ℚ
  cost : ℚ
  case_type : String
  logit : ℚ
  score : ℚ
deriving DecidableEq

/-- A dropped row: a candidate row augmented with the three columns that
`apply_constraints` adds to the dropped set. -/
structure DroppedItem extends Candidate where
  dropped_reason : String
  capacity_stage : String
  inclusion_margin : ℚ
deriving DecidableEq

/-- The `boundary_items` dictionary built by `compute_boundary_items`. -/
structure BoundaryItems where
  threshold : ℚ
  top_k : Nat
  budget : Nat
  kth_score : Option ℚ
  kth_item : Option Candidate
  budget_score : Option ℚ
  budget_item : Option Candidate
deriving DecidableEq

/-- The `counts` dictionary of the result. -/
structure Counts where
  n_total : Nat
  n_after_threshold : Nat
  n_after_topk : Nat
  n_shown : Nat
  n_dropped : Nat
deriving DecidableEq

/-- The dictionary returned by `apply_constraints`. -/
structure ResultBundle where
  all_candidates : List Candidate
  after_threshold : List Candidate
  after_topk : List Candidate
  shown : List Candidate
  dropped : List DroppedItem
  boundary_items : BoundaryItems
  counts : Counts
deriving DecidableEq

/-- The runtime errors the Python function can raise: an `IndexError` from
`.iloc[-1]` on an empty frame, or an `AssertionError` from the inline
invariant checks.  There is no input-validation error kind because the
source performs no input validation. -/
inductive EngineError where
  | indexError : String → EngineError
  | assertionError : String → EngineError
deriving DecidableEq

deriving instance DecidableEq for Except

/-- The canonical total order of the engine: `score` descending, then `id`
ascending — the key of `df.sort_values(['score','id'], ascending=[False,True])`. -/
def canonOrder (a b : Candidate) : Prop :=
  b.score < a.score ∨ (a.score = b.score ∧ strLe a.id b.id = true)

instance decCanonOrder : DecidableRel canonOrder := fun a b =>
  inferInstanceAs (Decidable (b.score < a.score ∨ (a.score = b.score ∧ strLe a.id b.id = true)))

/-- The order used to re-sort the dropped set:
`(inclusion_margin asc, score desc, id asc)`. -/
def dropOrder (a b : DroppedItem) : Prop :=
  a.inclusion_margin < b.inclusion_margin ∨
    (a.inclusion_margin = b.inclusion_margin ∧
      (b.score < a.score ∨ (a.score = b.score ∧ strLe a.id b.id = true)))

instance decDropOrder : DecidableRel dropOrder := fun a b =>
  inferInstanceAs (Decidable (a.inclusion_margin < b.inclusion_margin ∨
    (a.inclusion_margin = b.inclusion_margin ∧
      (b.score < a.score ∨ (a.score = b.score ∧ strLe a.id b.id = true)))))

/-- The sort key of a candidate: the `(score, id)` pair, the only candidate
data the partition logic reads. -/
def proj (c : Candidate) : ℚ × String := (c.score, c.id)

/-- The canonical order transported to sort keys. -/
def pairOrder (p q : ℚ × String) : Prop :=
  q.1 < p.1 ∨ (p.1 = q.1 ∧ strLe p.2 q.2 = true)

/-- The dropped-set data visible to the partition claims: margin, score, id,
stage, reason. -/
def projD (d : DroppedItem) : ℚ × ℚ × String × String × String :=
  (d.inclusion_margin, d.score, d.id, d.capacity_stage, d.dropped_reason)

/-- The dropped-set sort key: `(inclusion_margin, score, id)`. -/
def projD3 (d : DroppedItem) : ℚ × ℚ × String :=
  (d.inclusion_margin, d.score, d.id)

/-- The dropped-set order transported to sort keys. -/
def tripleOrder (p q : ℚ × ℚ × String) : Prop :=
  p.1 < q.1 ∨ (p.1 = q.1 ∧ (q.2.1 < p.2.1 ∨ (p.2.1 = q.2.1 ∧ strLe p.2.2 q.2.2 = true)))

/-- The Sorter: `df.sort_values(['score','id'], ascending=[False,True],
kind='mergesort')`. -/
def sortCanonical (df : List Candidate) : List Candidate :=
  List.insertionSort canonOrder df

/-- The re-sort of the combined dropped set:
`dropped.sort_values(['inclusion_margin','score','id'],
ascending=[True,False,True], kind='mergesort')`. -/
def sortDropped (l : List DroppedItem) : List DroppedItem :=
  List.insertionSort dropOrder l

/-- The locked drop-reason string. -/
def droppedReasonStr : String := "eligible but dropped by capacity"

/-- One dropped row: the candidate row with the three added columns, the
margin being the gap to the cutoff item of its stage. -/
def mkDroppedItem (stage : String) (cutoffItem c : Candidate) : DroppedItem :=
  { toCandidate := c, dropped_reason := droppedReasonStr, capacity_stage := stage,
    inclusion_margin := ratSub cutoffItem.score c.score }

/-- Common shape of the two drop-building branches of `apply_constraints`:
when the capacity stage excluded someone (`len(kept) < len(eligible)`),
rebuild the eligible rows whose id is not in the kept set and annotate them
with the stage and the margin to the `kept.iloc[-1]` cutoff; `iloc[-1]` on
an empty frame raises `IndexError`. -/
def buildCapacityDrops (stage : String) (eligible kept : List Candidate) :
    Except EngineError (List DroppedItem) :=
  if kept.length < eligible.length then
    match kept.getLast? with
    | some cutoffItem =>
        .ok ((eligible.filter
              (fun c => !(kept.any (fun d => d.id == c.id)))).map
          (mkDroppedItem stage cutoffItem))
    | none => .error (.indexError "single positional indexer is out-of-bounds")
  else .ok []

/-- The `top_k`-stage drop branch (lines 132-142 of `constraints.py`). -/
def buildTopkDrops (after_threshold after_topk : List Candidate) :
    Except EngineError (List DroppedItem) :=
  buildCapacityDrops "top_k" after_threshold after_topk

/-- The `budget`-stage drop branch (lines 145-155 of `constraints.py`). -/
def buildBudgetDrops (after_topk shown : List Candidate) :
    Except EngineError (List DroppedItem) :=
  buildCapacityDrops "budget" after_topk shown

/-- Faithful embedding of `compute_boundary_items` from `src/constraints.py`:
the kth boundary is reported only when `len(after_topk) > 0` and
`top_k < len(after_threshold)`; the budget boundary only when
`len(shown) > 0`, `len(shown) == budget_actual` and
`budget_actual < len(after_topk)`. -/
def compute_boundary_items (after_threshold after_topk shown : List Candidate)
    (threshold : ℚ) (top_k budget budget_actual : Nat) : BoundaryItems :=
  let kth : Option Candidate :=
    if 0 < after_topk.length ∧ top_k < after_threshold.length then
      after_topk.getLast?
    else none
  let budgetItem : Option Candidate :=
    if 0 < shown.length ∧
        (shown.length = budget_actual ∧ budget_actual < after_topk.length) then
      shown.getLast?
    else none
  { threshold := threshold, top_k := top_k, budget := budget,
    kth_score := kth.map (·.score), kth_item := kth,
    budget_score := budgetItem.map (·.score), budget_item := budgetItem }

/-- Python `set(xs) <= set(ys)` on id lists. -/
def idsSubset (xs ys : List String) : Bool := xs.all (fun i => ys.elem i)

/-- Python `set(xs) & set(ys) == set()` on id lists. -/
def idsDisjoint (xs ys : List String) : Bool := xs.all (fun i => !(ys.elem i))

/-- Stage 1 (ThresholdGate): the rows of the sorted population with
`score >= threshold` (inclusive), order inherited. -/
def afterThresholdOf (s : List Candidate) (threshold : ℚ) : List Candidate :=
  s.filter (fun c => decide (threshold ≤ c.score))

/-- The clamp `k_actual = min(top_k, len(after_threshold))`. -/
def kActualOf (s : List Candidate) (threshold : ℚ) (top_k : Nat) : Nat :=
  min top_k (afterThresholdOf s threshold).length

/-- Stage 2 (CapacityGate): the first `k_actual` rows. -/
def afterTopkOf (s : List Candidate) (threshold : ℚ) (top_k : Nat) : List Candidate :=
  (afterThresholdOf s threshold).take (kActualOf s threshold top_k)

/-- The clamp `budget_actual = min(budget, len(after_topk))`. -/
def budgetActualOf (s : List Candidate) (threshold : ℚ) (top_k budget : Nat) : Nat :=
  min budget (afterTopkOf s threshold top_k).length

/-- Stage 3 (BudgetGate): the first `budget_actual` rows. -/
def shownOf (s : List Candidate) (threshold : ℚ) (top_k budget : Nat) : List Candidate :=
  (afterTopkOf s threshold top_k).take (budgetActualOf s threshold top_k budget)

/-- Assembly tail of `apply_constraints`: re-sort the combined dropped set,
compute boundary items and counts, run the four inline `assert` checks in
source order, and return the bundle. -/
def assembleBundle (all_candidates after_threshold after_topk shown : List Candidate)
    (topkDrops budgetDrops : List DroppedItem)
    (threshold : ℚ) (top_k budget budget_actual : Nat) : Except EngineError ResultBundle :=
  let dropped := sortDropped (topkDrops ++ budgetDrops)
  let boundary_items := compute_boundary_items after_threshold after_topk shown
    threshold top_k budget budget_actual
  let counts : Counts :=
    { n_total := all_candidates.length,
      n_after_threshold := after_threshold.length,
      n_after_topk := after_topk.length,
      n_shown := shown.length,
      n_dropped := dropped.length }
  let shownIds := shown.map (·.id)
  let droppedIds := dropped.map (·.id)
  let afterThresholdIds := after_threshold.map (·.id)
  if idsSubset (shownIds ++ droppedIds) afterThresholdIds &&
      idsSubset afterThresholdIds (shownIds ++ droppedIds) then
    if idsDisjoint shownIds droppedIds then
      if counts.n_shown + counts.n_dropped == counts.n_after_threshold then
        if decide (0 < dropped.length) && !(dropped.all (fun d => decide (0 ≤ d.inclusion_margin)))
        then .error (.assertionError "Negative margins detected")
        else .ok
          { all_candidates := all_candidates,
            after_threshold := after_threshold,
            after_topk := after_topk,
            shown := shown,
            dropped := dropped,
            boundary_items := boundary_items,
            counts := counts }
      else .error (.assertionError "Count invariant violated")
    else .error (.assertionError "Disjoint invariant violated: shown INTERSECT dropped != empty")
  else .error (.assertionError "Partition invariant violated: shown UNION dropped != after_threshold")

/-- The body of `apply_constraints` after the initial sort: threshold gate,
top-K gate, budget gate, drop building, and the assembly tail with its
inline `assert` checks, in source order. -/
def constraint_pipeline (all_candidates : List Candidate) (threshold : ℚ)
    (top_k budget : Nat) : Except EngineError ResultBundle :=
  match buildTopkDrops (afterThresholdOf all_candidates threshold)
      (afterTopkOf all_candidates threshold top_k) with
  | .error e => .error e
  | .ok topkDrops =>
    match buildBudgetDrops (afterTopkOf all_candidates threshold top_k)
        (shownOf all_candidates threshold top_k budget) with
    | .error e => .error e
    | .ok budgetDrops =>
      assembleBundle all_candidates (afterThresholdOf all_candidates threshold)
        (afterTopkOf all_candidates threshold top_k)
        (shownOf all_candidates threshold top_k budget)
        topkDrops budgetDrops threshold top_k budget
        (budgetActualOf all_candidates threshold top_k budget)

/-- Embedding of `apply_constraints` from `src/constraints.py`: sort once by
the canonical key, then run the three-stage pipeline with its inline
invariant assertions. -/
def apply_constraints (df : List Candidate) (threshold : ℚ)
    (top_k budget : Nat) : Except EngineError ResultBundle :=
  constraint_pipeline (sortCanonical df) threshold top_k budget

/-- The `top_k`-stage dropped rows in closed form: the suffix of
`after_threshold` beyond `k_actual` (empty when the gate is not binding). -/
def topkDropsOf (s : List Candidate) (threshold : ℚ) (top_k : Nat) : List DroppedItem :=
  match (afterTopkOf s threshold top_k).getLast? with
  | some cutoffItem =>
      ((afterThresholdOf s threshold).drop (kActualOf s threshold top_k)).map
        (mkDroppedItem "top_k" cutoffItem)
  | none => []

/-- The `budget`-stage dropped rows in closed form: the suffix of
`after_topk` beyond `budget_actual` (empty when the gate is not binding). -/
def budgetDropsOf (s : List Candidate) (threshold : ℚ) (top_k budget : Nat) : List DroppedItem :=
  match (shownOf s threshold top_k budget).getLast? with
  | some cutoffItem =>
      ((afterTopkOf s threshold top_k).drop (budgetActualOf s threshold top_k budget)).map
        (mkDroppedItem "budget" cutoffItem)
  | none => []

/-- A closed-form description of the bundle `apply_constraints` returns on
inputs with unique ids and positive `top_k` and `budget`: the two dropped
subsets are exactly the suffixes that the two `take` prefixes leave behind.
`apply_constraints_ok` proves the correspondence. -/
def bundleOf (df : List Candidate) (threshold : ℚ) (top_k budget : Nat) : ResultBundle :=
  let s := sortCanonical df
  let dropped := sortDropped (topkDropsOf s threshold top_k ++ budgetDropsOf s threshold top_k budget)
  { all_candidates := s,
    after_threshold := afterThresholdOf s threshold,
    after_topk := afterTopkOf s threshold top_k,
    shown := shownOf s threshold top_k budget,
    dropped := dropped,
    boundary_items := compute_boundary_items (afterThresholdOf s threshold)
      (afterTopkOf s threshold top_k) (shownOf s threshold top_k budget)
      threshold top_k budget (budgetActualOf s threshold top_k budget),
    counts :=
      { n_total := s.length,
        n_after_threshold := (afterThresholdOf s threshold).length,
        n_after_topk := (afterTopkOf s threshold top_k).length,
        n_shown := (shownOf s threshold top_k budget).length,
        n_dropped := dropped.length } }

/-- A concrete candidate row for witnesses: fixed feature attributes, given
id and score. -/
def testCandidate (i : String) (s : ℚ) : Candidate :=
  { id := i, urgency := mkRat 1 2, confidence := mkRat 1 2, impact := mkRat 1 2,
    cost := mkRat 1 2, case_type := "test", logit := 0, score := s }

/-- The literal 4-candidate population of the tie-breaking scenario
(`test_tie_breaking_stability`), in its original input order. -/
def pop4 : List Candidate :=
  [testCandidate "C0003" (mkRat 3 5), testCandidate "C0001" (mkRat 1 2),
   testCandidate "C0002" (mkRat 1 2), testCandidate "C0004" (mkRat 2 5)]

/-- The same population in a different input order (for order-independence). -/
def pop4shuffled : List Candidate :=
  [testCandidate "C0004" (mkRat 2 5), testCandidate "C0001" (mkRat 1 2),
   testCandidate "C0003" (mkRat 3 5), testCandidate "C0002" (mkRat 1 2)]

/-- A population with the same ids and scores as `pop4` but different values
in every other column (for the non-interference claim). -/
def pop4other : List Candidate :=
  [{ id := "C0003", urgency := 1, confidence := 0, impact := 1, cost := 0,
     case_type := "borderline", logit := 7, score := mkRat 3 5 },
   { id := "C0001", urgency := 0, confidence := 1, impact := 0, cost := 1,
     case_type := "base", logit := mkRat 1 3, score := mkRat 1 2 },
   { id := "C0002", urgency := mkRat 1 4, confidence := mkRat 3 4, impact := 1, cost := 1,
     case_type := "high_urg_low_conf", logit := 2, score := mkRat 1 2 },
   { id := "C0004", urgency := 1, confidence := 1, impact := mkRat 1 4, cost := 0,
     case_type := "high_impact_high_cost", logit := 5, score := mkRat 2 5 }]

/-- A population with a duplicated id (an input-contract violation). -/
def dupPop : List Candidate :=
  [testCandidate "C0001" (mkRat 3 5), testCandidate "C0001" (mkRat 1 2)]

theorem charListLe_cons (a b : Char) (as bs : List Char) :
    charListLe (a :: as) (b :: bs) = true ↔
      (a.toNat < b.toNat ∨ (a.toNat = b.toNat ∧ charListLe as bs = true)) := by
  simp only [charListLe]
  split_ifs with h1 h2
  · simp [h1]
  · constructor
    · intro h; cases h
    · rintro (h | ⟨h, _⟩) <;> omega
  · have h3 : a.toNat = b.toNat := by omega
    simp [h3]

theorem charListLe_total (as bs : List Char) :
    charListLe as bs = true ∨ charListLe bs as = true := by
  induction as generalizing bs with
  | nil => left; rfl
  | cons a as ih =>
    cases bs with
    | nil => right; rfl
    | cons b bs =>
      rcases Nat.lt_trichotomy a.toNat b.toNat with h | h | h
      · left; rw [charListLe_cons]; exact .inl h
      · rcases ih bs with h' | h'
        · left; rw [charListLe_cons]; exact .inr ⟨h, h'⟩
        · right; rw [charListLe_cons]; exact .inr ⟨h.symm, h'⟩
      · right; rw [charListLe_cons]; exact .inl h

theorem charListLe_trans : ∀ (as bs cs : List Char), charListLe as bs = true →
    charListLe bs cs = true → charListLe as cs = true
  | [], _, _, _, _ => rfl
  | _ :: _, [], _, h1, _ => by simp [charListLe] at h1
  | _ :: _, _ :: _, [], _, h2 => by simp [charListLe] at h2
  | a :: as, b :: bs, c :: cs, h1, h2 => by
    rw [charListLe_cons] at h1 h2 ⊢
    rcases h1 with h1 | ⟨h1, h1'⟩ <;> rcases h2 with h2 | ⟨h2, h2'⟩
    · exact .inl (Nat.lt_trans h1 h2)
    · exact .inl (by omega)
    · exact .inl (by omega)
    · exact .inr ⟨by omega, charListLe_trans as bs cs h1' h2'⟩

theorem charListLe_antisymm : ∀ (as bs : List Char), charListLe as bs = true →
    charListLe bs as = true → as = bs
  | [], [], _, _ => rfl
  | [], _ :: _, _, h2 => by simp [charListLe] at h2
  | _ :: _, [], h1, _ => by simp [charListLe] at h1
  | a :: as, b :: bs, h1, h2 => by
    rw [charListLe_cons] at h1 h2
    rcases h1 with h1 | ⟨h1, h1'⟩ <;> rcases h2 with h2 | ⟨h2, h2'⟩ <;> try omega
    have hab : a = b := Char.eq_of_val_eq (UInt32.ext h1)
    rw [hab, charListLe_antisymm as bs h1' h2']

theorem strLe_total (a b : String) : strLe a b = true ∨ strLe b a = true :=
  charListLe_total a.data b.data

theorem strLe_trans {a b c : String} (h1 : strLe a b = true) (h2 : strLe b c = true) :
    strLe a c = true :=
  charListLe_trans a.data b.data c.data h1 h2

theorem strLe_antisymm {a b : String} (h1 : strLe a b = true) (h2 : strLe b a = true) :
    a = b := by
  cases a; cases b
  exact congrArg String.mk (charListLe_antisymm _ _ h1 h2)

theorem strLe_refl (a : String) : strLe a a = true := by
  rcases strLe_total a a with h | h <;> exact h

instance : IsTrans Candidate canonOrder := ⟨by
  intro a b c hab hbc
  rcases hab with h | ⟨h, h'⟩ <;> rcases hbc with g | ⟨g, g'⟩
  · exact .inl (lt_trans g h)
  · exact .inl (g ▸ h)
  · exact .inl (h ▸ g)
  · exact .inr ⟨h.trans g, strLe_trans h' g'⟩⟩

instance : IsTotal Candidate canonOrder := ⟨by
  intro a b
  rcases lt_trichotomy a.score b.score with h | h | h
  · exact .inr (.inl h)
  · rcases strLe_total a.id b.id with g | g
    · exact .inl (.inr ⟨h, g⟩)
    · exact .inr (.inr ⟨h.symm, g⟩)
  · exact .inl (.inl h)⟩

instance : IsTrans DroppedItem dropOrder := ⟨by
  intro a b c hab hbc
  rcases hab with h | ⟨h, hs⟩ <;> rcases hbc with g | ⟨g, gs⟩
  · exact .inl (lt_trans h g)
  · exact .inl (g ▸ h)
  · exact .inl (h ▸ g)
  · refine .inr ⟨h.trans g, ?_⟩
    rcases hs with h' | ⟨h', h''⟩ <;> rcases gs with g' | ⟨g', g''⟩
    · exact .inl (lt_trans g' h')
    · exact .inl (g' ▸ h')
    · exact .inl (h' ▸ g')
    · exact .inr ⟨h'.trans g', strLe_trans h'' g''⟩⟩

instance : IsTotal DroppedItem dropOrder := ⟨by
  intro a b
  rcases lt_trichotomy a.inclusion_margin b.inclusion_margin with h | h | h
  · exact .inl (.inl h)
  · rcases lt_trichotomy a.score b.score with g | g | g
    · exact .inr (.inr ⟨h.symm, .inl g⟩)
    · rcases strLe_total a.id b.id with s | s
      · exact .inl (.inr ⟨h, .inr ⟨g, s⟩⟩)
      · exact .inr (.inr ⟨h.symm, .inr ⟨g.symm, s⟩⟩)
    · exact .inl (.inr ⟨h, .inl g⟩)
  · exact .inr (.inl h)⟩

instance : IsAntisymm (ℚ × String) pairOrder := ⟨by
  intro p q hpq hqp
  rcases hpq with h | ⟨h, hs⟩ <;> rcases hqp with g | ⟨g, gs⟩
  · exact absurd (lt_trans h g) (lt_irrefl _)
  · exact absurd h (g ▸ lt_irrefl _)
  · exact absurd g (h ▸ lt_irrefl _)
  · exact Prod.ext h (strLe_antisymm hs gs)⟩

instance : IsAntisymm (ℚ × ℚ × String) tripleOrder := ⟨by
  intro p q hpq hqp
  rcases hpq with h | ⟨h, hs⟩ <;> rcases hqp with g | ⟨g, gs⟩
  · exact absurd (lt_trans h g) (lt_irrefl _)
  · exact absurd h (g ▸ lt_irrefl _)
  · exact absurd g (h ▸ lt_irrefl _)
  · refine Prod.ext h ?_
    rcases hs with h' | ⟨h', h''⟩ <;> rcases gs with g' | ⟨g', g''⟩
    · exact absurd (lt_trans h' g') (lt_irrefl _)
    · exact absurd h' (g' ▸ lt_irrefl _)
    · exact absurd g' (h' ▸ lt_irrefl _)
    · exact Prod.ext h' (strLe_antisymm h'' g'')⟩

theorem canonOrder_iff_pairOrder (a b : Candidate) :
    canonOrder a b ↔ pairOrder (proj a) (proj b) := Iff.rfl

theorem dropOrder_iff_tripleOrder (a b : DroppedItem) :
    dropOrder a b ↔ tripleOrder (projD3 a) (projD3 b) := Iff.rfl

theorem sortCanonical_perm (df : List Candidate) : (sortCanonical df).Perm df :=
  List.perm_insertionSort _ _

theorem sortCanonical_sorted (df : List Candidate) :
    List.Sorted canonOrder (sortCanonical df) :=
  List.sorted_insertionSort _ _

theorem sortDropped_perm (l : List DroppedItem) : (sortDropped l).Perm l :=
  List.perm_insertionSort _ _

theorem sortDropped_sorted (l : List DroppedItem) :
    List.Sorted dropOrder (sortDropped l) :=
  List.sorted_insertionSort _ _

theorem ratSub_eq (a b : ℚ) : ratSub a b = a - b := by
  unfold ratSub
  rw [Rat.mkRat_eq_div]
  have ha : (a.den : ℚ) ≠ 0 := by
    exact_mod_cast a.den_nz
  have hb : (b.den : ℚ) ≠ 0 := by
    exact_mod_cast b.den_nz
  conv_rhs => rw [← Rat.num_div_den a, ← Rat.num_div_den b]
  rw [div_sub_div _ _ ha hb]
  push_cast
  ring_nf

@[simp] theorem mkDroppedItem_toCandidate (s : String) (cut c : Candidate) :
    (mkDroppedItem s cut c).toCandidate = c := rfl

@[simp] theorem mkDroppedItem_id (s : String) (cut c : Candidate) :
    (mkDroppedItem s cut c).id = c.id := rfl

@[simp] theorem mkDroppedItem_score (s : String) (cut c : Candidate) :
    (mkDroppedItem s cut c).score = c.score := rfl

@[simp] theorem mkDroppedItem_stage (s : String) (cut c : Candidate) :
    (mkDroppedItem s cut c).capacity_stage = s := rfl

@[simp] theorem mkDroppedItem_reason (s : String) (cut c : Candidate) :
    (mkDroppedItem s cut c).dropped_reason = droppedReasonStr := rfl

@[simp] theorem mkDroppedItem_margin (s : String) (cut c : Candidate) :
    (mkDroppedItem s cut c).inclusion_margin = ratSub cut.score c.score := rfl

theorem eq_of_perm_of_map_key_eq {α β : Type} {key : α → β} :
    ∀ {l₁ l₂ : List α}, l₁.Perm l₂ → (l₁.map key).Nodup →
      l₁.map key = l₂.map key → l₁ = l₂
  | [], [], _, _, _ => rfl
  | [], _ :: _, hp, _, _ => absurd hp.length_eq (by simp)
  | _ :: _, [], hp, _, _ => absurd hp.length_eq (by simp)
  | a :: t₁, b :: t₂, hp, hnd, hmap => by
    simp only [List.map_cons, List.cons.injEq] at hmap
    obtain ⟨hk, hmap'⟩ := hmap
    have hab : a = b := by
      have hbmem : b ∈ a :: t₁ := hp.symm.subset (List.mem_cons_self b t₂)
      rcases List.mem_cons.mp hbmem with h | h
      · exact h.symm
      · exfalso
        have hmem : key b ∈ t₁.map key := List.mem_map_of_mem key h
        rw [← hk] at hmem
        exact (List.nodup_cons.mp hnd).1 hmem
    subst hab
    have hp' : t₁.Perm t₂ := (List.perm_cons a).mp hp
    have := eq_of_perm_of_map_key_eq hp' (List.nodup_cons.mp hnd).2 hmap'
    rw [this]

theorem filter_not_mem_kept (l kept : List Candidate) (k : Nat)
    (hkept : kept = l.take k)
    (hid : (l.map (·.id)).Nodup) :
    l.filter (fun c => !(kept.any (fun d => d.id == c.id))) = l.drop k := by
  have hsplit : (l.map (·.id)) = (l.take k).map (·.id) ++ (l.drop k).map (·.id) := by
    rw [← List.map_append, List.take_append_drop]
  rw [hsplit, List.nodup_append] at hid
  obtain ⟨-, -, hdisj⟩ := hid
  conv_lhs => rw [← List.take_append_drop k l]
  rw [List.filter_append, hkept]
  have h1 : (l.take k).filter (fun c => !((l.take k).any (fun d => d.id == c.id))) = [] := by
    rw [List.filter_eq_nil_iff]
    intro c hc
    simp only [Bool.not_eq_true', Bool.not_eq_false]
    exact List.any_eq_true.mpr ⟨c, hc, by simp⟩
  have h2 : (l.drop k).filter (fun c => !((l.take k).any (fun d => d.id == c.id))) = l.drop k := by
    rw [List.filter_eq_self]
    intro c hc
    simp only [Bool.not_eq_true']
    rw [List.any_eq_false]
    intro d hd
    simp only [beq_iff_eq]
    intro hdc
    have hc' : c.id ∈ (l.drop k).map (·.id) := List.mem_map_of_mem _ hc
    have hd' : c.id ∈ (l.take k).map (·.id) := by
      rw [← hdc]; exact List.mem_map_of_mem _ hd
    exact hdisj hd' hc'
  rw [h1, h2, List.nil_append]

theorem score_le_of_sorted_take_drop (l : List Candidate) (k : Nat)
    (hs : List.Sorted canonOrder l) {cut : Candidate}
    (hcut : (l.take k).getLast? = some cut) :
    ∀ c ∈ l.drop k, c.score ≤ cut.score := by
  intro c hc
  have hmem : cut ∈ l.take k := List.mem_of_mem_getLast? hcut
  have hs' : List.Pairwise canonOrder (l.take k ++ l.drop k) := by
    rw [List.take_append_drop]; exact hs
  have hrel : canonOrder cut c :=
    (List.pairwise_append.mp hs').2.2 cut hmem c hc
  rcases hrel with h | ⟨h, -⟩
  · exact le_of_lt h
  · exact le_of_eq h.symm

theorem buildCapacityDrops_take (stage : String) (l : List Candidate) (kk : Nat)
    (hkk : 1 ≤ kk) (hid : (l.map (·.id)).Nodup) :
    buildCapacityDrops stage l (l.take (min kk l.length)) =
      .ok (match (l.take (min kk l.length)).getLast? with
           | some cut => (l.drop (min kk l.length)).map (mkDroppedItem stage cut)
           | none => []) := by
  have hlen : (l.take (min kk l.length)).length = min kk l.length := by
    rw [List.length_take]
    omega
  by_cases hlt : min kk l.length < l.length
  · have hk : min kk l.length = kk := by omega
    have hne : l.take (min kk l.length) ≠ [] := by
      intro h
      rw [← List.length_eq_zero] at h
      omega
    obtain ⟨cut, hcut⟩ : ∃ cut, (l.take (min kk l.length)).getLast? = some cut := by
      cases hlast : (l.take (min kk l.length)).getLast? with
      | none => exact absurd (List.getLast?_eq_none_iff.mp hlast) hne
      | some cut => exact ⟨cut, rfl⟩
    rw [buildCapacityDrops, if_pos (by rw [hlen]; exact hlt), hcut,
      filter_not_mem_kept l _ (min kk l.length) rfl hid]
  · have hk : min kk l.length = l.length := by omega
    rw [buildCapacityDrops, if_neg (by omega)]
    cases hlast : (l.take (min kk l.length)).getLast? with
    | none => rfl
    | some cut => simp [hk, List.drop_length]

theorem idsSubset_eq_true {xs ys : List String} :
    idsSubset xs ys = true ↔ ∀ i ∈ xs, i ∈ ys := by
  simp [idsSubset, List.all_eq_true, List.elem_iff]

theorem idsDisjoint_eq_true {xs ys : List String} :
    idsDisjoint xs ys = true ↔ ∀ i ∈ xs, i ∉ ys := by
  simp [idsDisjoint, List.all_eq_true, List.elem_iff]

theorem afterThresholdOf_sublist (s : List Candidate) (t : ℚ) :
    (afterThresholdOf s t).Sublist s :=
  List.filter_sublist s

theorem afterThresholdOf_sorted {s : List Candidate} (hs : List.Sorted canonOrder s)
    (t : ℚ) : List.Sorted canonOrder (afterThresholdOf s t) :=
  List.Pairwise.sublist (afterThresholdOf_sublist s t) hs

theorem kActualOf_le (s : List Candidate) (t : ℚ) (k : Nat) :
    kActualOf s t k ≤ (afterThresholdOf s t).length :=
  Nat.min_le_right _ _

theorem afterTopkOf_length (s : List Candidate) (t : ℚ) (k : Nat) :
    (afterTopkOf s t k).length = kActualOf s t k := by
  rw [afterTopkOf, List.length_take]
  have := kActualOf_le s t k
  omega

theorem afterTopkOf_sublist (s : List Candidate) (t : ℚ) (k : Nat) :
    (afterTopkOf s t k).Sublist (afterThresholdOf s t) :=
  List.take_sublist _ _

theorem afterTopkOf_sorted {s : List Candidate} (hs : List.Sorted canonOrder s)
    (t : ℚ) (k : Nat) : List.Sorted canonOrder (afterTopkOf s t k) :=
  List.Pairwise.sublist (afterTopkOf_sublist s t k) (afterThresholdOf_sorted hs t)

theorem budgetActualOf_le (s : List Candidate) (t : ℚ) (k b : Nat) :
    budgetActualOf s t k b ≤ (afterTopkOf s t k).length :=
  Nat.min_le_right _ _

theorem shownOf_length (s : List Candidate) (t : ℚ) (k b : Nat) :
    (shownOf s t k b).length = budgetActualOf s t k b := by
  rw [shownOf, List.length_take]
  have := budgetActualOf_le s t k b
  omega

theorem shownOf_sublist (s : List Candidate) (t : ℚ) (k b : Nat) :
    (shownOf s t k b).Sublist (afterTopkOf s t k) :=
  List.take_sublist _ _

theorem shownOf_sorted {s : List Candidate} (hs : List.Sorted canonOrder s)
    (t : ℚ) (k b : Nat) : List.Sorted canonOrder (shownOf s t k b) :=
  List.Pairwise.sublist (shownOf_sublist s t k b) (afterTopkOf_sorted hs t k)

theorem afterThresholdOf_nodup {s : List Candidate}
    (hid : (s.map (·.id)).Nodup) (t : ℚ) :
    ((afterThresholdOf s t).map (·.id)).Nodup :=
  List.Nodup.sublist ((afterThresholdOf_sublist s t).map _) hid

theorem afterTopkOf_nodup {s : List Candidate}
    (hid : (s.map (·.id)).Nodup) (t : ℚ) (k : Nat) :
    ((afterTopkOf s t k).map (·.id)).Nodup :=
  List.Nodup.sublist ((afterTopkOf_sublist s t k).map _) (afterThresholdOf_nodup hid t)

theorem buildTopkDrops_eq (s : List Candidate) (t : ℚ) (k : Nat)
    (hk : 1 ≤ k) (hid : (s.map (·.id)).Nodup) :
    buildTopkDrops (afterThresholdOf s t) (afterTopkOf s t k) = .ok (topkDropsOf s t k) := by
  have h := buildCapacityDrops_take "top_k" (afterThresholdOf s t) k hk
    (afterThresholdOf_nodup hid t)
  rw [buildTopkDrops]
  rw [show afterTopkOf s t k =
    (afterThresholdOf s t).take (min k (afterThresholdOf s t).length) from rfl]
  rw [h, topkDropsOf]
  rfl

theorem buildBudgetDrops_eq (s : List Candidate) (t : ℚ) (k b : Nat)
    (hb : 1 ≤ b) (hid : (s.map (·.id)).Nodup) :
    buildBudgetDrops (afterTopkOf s t k) (shownOf s t k b) = .ok (budgetDropsOf s t k b) := by
  have h := buildCapacityDrops_take "budget" (afterTopkOf s t k) b hb
    (afterTopkOf_nodup hid t k)
  rw [buildBudgetDrops]
  rw [show shownOf s t k b =
    (afterTopkOf s t k).take (min b (afterTopkOf s t k).length) from rfl]
  rw [h, budgetDropsOf]
  rfl

theorem afterTopkOf_eq_nil {s : List Candidate} {t : ℚ} {k : Nat}
    (hk : 1 ≤ k) (h : afterTopkOf s t k = []) : afterThresholdOf s t = [] := by
  have hlen := afterTopkOf_length s t k
  rw [h] at hlen
  have hzero : (afterThresholdOf s t).length = 0 := by
    rw [kActualOf] at hlen
    rcases Nat.min_eq_zero_iff.mp hlen.symm with h' | h'
    · omega
    · exact h'
  exact List.length_eq_zero.mp hzero

theorem shownOf_eq_nil {s : List Candidate} {t : ℚ} {k b : Nat}
    (hb : 1 ≤ b) (h : shownOf s t k b = []) : afterTopkOf s t k = [] := by
  have hlen := shownOf_length s t k b
  rw [h] at hlen
  have hzero : (afterTopkOf s t k).length = 0 := by
    rw [budgetActualOf] at hlen
    rcases Nat.min_eq_zero_iff.mp hlen.symm with h' | h'
    · omega
    · exact h'
  exact List.length_eq_zero.mp hzero

theorem topkDropsOf_cands (s : List Candidate) (t : ℚ) (k : Nat) (hk : 1 ≤ k) :
    (topkDropsOf s t k).map (·.toCandidate) =
      (afterThresholdOf s t).drop (kActualOf s t k) := by
  rw [topkDropsOf]
  cases hlast : (afterTopkOf s t k).getLast? with
  | none =>
    have hnil : afterTopkOf s t k = [] := List.getLast?_eq_none_iff.mp hlast
    have hth := afterTopkOf_eq_nil hk hnil
    simp [hth]
  | some cut =>
    rw [List.map_map]
    simp [Function.comp_def]

theorem budgetDropsOf_cands (s : List Candidate) (t : ℚ) (k b : Nat) (hb : 1 ≤ b) :
    (budgetDropsOf s t k b).map (·.toCandidate) =
      (afterTopkOf s t k).drop (budgetActualOf s t k b) := by
  rw [budgetDropsOf]
  cases hlast : (shownOf s t k b).getLast? with
  | none =>
    have hnil : shownOf s t k b = [] := List.getLast?_eq_none_iff.mp hlast
    have hatk := shownOf_eq_nil hb hnil
    simp [hatk]
  | some cut =>
    rw [List.map_map]
    simp [Function.comp_def]

theorem topkDropsOf_mem {s : List Candidate} {t : ℚ} {k : Nat} {d : DroppedItem}
    (hd : d ∈ topkDropsOf s t k) :
    d.capacity_stage = "top_k" ∧ d.dropped_reason = droppedReasonStr ∧
      ∃ cut, (afterTopkOf s t k).getLast? = some cut ∧
        d.toCandidate ∈ (afterThresholdOf s t).drop (kActualOf s t k) ∧
        d.inclusion_margin = ratSub cut.score d.score := by
  rw [topkDropsOf] at hd
  cases hlast : (afterTopkOf s t k).getLast? with
  | none => rw [hlast] at hd; cases hd
  | some cut =>
    rw [hlast] at hd
    obtain ⟨c, hc, rfl⟩ := List.mem_map.mp hd
    exact ⟨rfl, rfl, cut, rfl, by simpa using hc, rfl⟩

theorem budgetDropsOf_mem {s : List Candidate} {t : ℚ} {k b : Nat} {d : DroppedItem}
    (hd : d ∈ budgetDropsOf s t k b) :
    d.capacity_stage = "budget" ∧ d.dropped_reason = droppedReasonStr ∧
      ∃ cut, (shownOf s t k b).getLast? = some cut ∧
        d.toCandidate ∈ (afterTopkOf s t k).drop (budgetActualOf s t k b) ∧
        d.inclusion_margin = ratSub cut.score d.score := by
  rw [budgetDropsOf] at hd
  cases hlast : (shownOf s t k b).getLast? with
  | none => rw [hlast] at hd; cases hd
  | some cut =>
    rw [hlast] at hd
    obtain ⟨c, hc, rfl⟩ := List.mem_map.mp hd
    exact ⟨rfl, rfl, cut, rfl, by simpa using hc, rfl⟩

theorem topkDropsOf_margin_nonneg {s : List Candidate} (hs : List.Sorted canonOrder s)
    {t : ℚ} {k : Nat} {d : DroppedItem} (hd : d ∈ topkDropsOf s t k) :
    0 ≤ d.inclusion_margin := by
  obtain ⟨-, -, cut, hcut, hmem, hmarg⟩ := topkDropsOf_mem hd
  have hle : d.toCandidate.score ≤ cut.score :=
    score_le_of_sorted_take_drop (afterThresholdOf s t) (kActualOf s t k)
      (afterThresholdOf_sorted hs t) hcut d.toCandidate hmem
  rw [hmarg, ratSub_eq]
  exact sub_nonneg.mpr hle

theorem budgetDropsOf_margin_nonneg {s : List Candidate} (hs : List.Sorted canonOrder s)
    {t : ℚ} {k b : Nat} {d : DroppedItem} (hd : d ∈ budgetDropsOf s t k b) :
    0 ≤ d.inclusion_margin := by
  obtain ⟨-, -, cut, hcut, hmem, hmarg⟩ := budgetDropsOf_mem hd
  have hle : d.toCandidate.score ≤ cut.score :=
    score_le_of_sorted_take_drop (afterTopkOf s t k) (budgetActualOf s t k b)
      (afterTopkOf_sorted hs t k) hcut d.toCandidate hmem
  rw [hmarg, ratSub_eq]
  exact sub_nonneg.mpr hle

theorem afterThreshold_decomp (s : List Candidate) (t : ℚ) (k b : Nat) :
    afterThresholdOf s t =
      shownOf s t k b ++ ((afterTopkOf s t k).drop (budgetActualOf s t k b) ++
        (afterThresholdOf s t).drop (kActualOf s t k)) := by
  conv_lhs => rw [← List.take_append_drop (kActualOf s t k) (afterThresholdOf s t)]
  rw [show (afterThresholdOf s t).take (kActualOf s t k) = afterTopkOf s t k from rfl]
  conv_lhs => rw [← List.take_append_drop (budgetActualOf s t k b) (afterTopkOf s t k)]
  rw [show (afterTopkOf s t k).take (budgetActualOf s t k b) = shownOf s t k b from rfl,
    List.append_assoc]

theorem assembleBundle_ok (ac th atk shn : List Candidate) (D1 D2 : List DroppedItem)
    (t : ℚ) (k b b_act : Nat)
    (hperm : ((shn.map (·.id)) ++ ((D1 ++ D2).map (·.id))).Perm (th.map (·.id)))
    (hnd : (th.map (·.id)).Nodup)
    (hmarg : ∀ d ∈ D1 ++ D2, 0 ≤ d.inclusion_margin) :
    assembleBundle ac th atk shn D1 D2 t k b b_act = .ok
      { all_candidates := ac, after_threshold := th, after_topk := atk, shown := shn,
        dropped := sortDropped (D1 ++ D2),
        boundary_items := compute_boundary_items th atk shn t k b b_act,
        counts :=
          { n_total := ac.length, n_after_threshold := th.length,
            n_after_topk := atk.length, n_shown := shn.length,
            n_dropped := (sortDropped (D1 ++ D2)).length } } := by
  have hpermD : ((sortDropped (D1 ++ D2)).map (·.id)).Perm ((D1 ++ D2).map (·.id)) :=
    (sortDropped_perm _).map _
  have hP : ((shn.map (·.id)) ++ ((sortDropped (D1 ++ D2)).map (·.id))).Perm (th.map (·.id)) :=
    ((List.Perm.refl _).append hpermD).trans hperm
  have hnd2 : ((shn.map (·.id)) ++ ((sortDropped (D1 ++ D2)).map (·.id))).Nodup :=
    hP.nodup_iff.mpr hnd
  have hsub1 : idsSubset ((shn.map (·.id)) ++ ((sortDropped (D1 ++ D2)).map (·.id)))
      (th.map (·.id)) = true :=
    idsSubset_eq_true.mpr (fun i hi => hP.subset hi)
  have hsub2 : idsSubset (th.map (·.id))
      ((shn.map (·.id)) ++ ((sortDropped (D1 ++ D2)).map (·.id))) = true :=
    idsSubset_eq_true.mpr (fun i hi => hP.symm.subset hi)
  have hdisj : idsDisjoint (shn.map (·.id)) ((sortDropped (D1 ++ D2)).map (·.id)) = true := by
    rw [idsDisjoint_eq_true]
    have hd := (List.nodup_append.mp hnd2).2.2
    exact fun i hi hj => hd hi hj
  have hlen : shn.length + (sortDropped (D1 ++ D2)).length = th.length := by
    have := hP.length_eq
    simpa using this
  have hcount : (shn.length + (sortDropped (D1 ++ D2)).length == th.length) = true := by
    simp [hlen]
  have hall : ((sortDropped (D1 ++ D2)).all (fun d => decide (0 ≤ d.inclusion_margin))) = true := by
    rw [List.all_eq_true]
    intro d hd
    exact decide_eq_true (hmarg d ((sortDropped_perm _).subset hd))
  rw [assembleBundle]
  simp only [hsub1, hsub2, hdisj, hcount, hall, Bool.and_self, if_true,
    Bool.not_true, Bool.and_false, Bool.false_eq_true, if_false]

theorem apply_constraints_ok (df : List Candidate) (t : ℚ) (k b : Nat)
    (hk : 1 ≤ k) (hb : 1 ≤ b) (hid : (df.map (·.id)).Nodup) :
    apply_constraints df t k b = .ok (bundleOf df t k b) := by
  have hid_s : ((sortCanonical df).map (·.id)).Nodup :=
    ((sortCanonical_perm df).map _).nodup_iff.mpr hid
  have hsorted := sortCanonical_sorted df
  have hcands : (shownOf (sortCanonical df) t k b ++
      (topkDropsOf (sortCanonical df) t k ++
        budgetDropsOf (sortCanonical df) t k b).map (·.toCandidate)).Perm
      (afterThresholdOf (sortCanonical df) t) := by
    rw [List.map_append, topkDropsOf_cands _ _ _ hk, budgetDropsOf_cands _ _ _ _ hb]
    conv_rhs => rw [afterThreshold_decomp (sortCanonical df) t k b]
    exact (List.Perm.refl _).append List.perm_append_comm
  have hids : (shownOf (sortCanonical df) t k b).map (·.id) ++
      ((topkDropsOf (sortCanonical df) t k ++
        budgetDropsOf (sortCanonical df) t k b).map (·.id)) =
      ((shownOf (sortCanonical df) t k b) ++
        ((topkDropsOf (sortCanonical df) t k ++
          budgetDropsOf (sortCanonical df) t k b).map (·.toCandidate))).map (·.id) := by
    conv_rhs => rw [List.map_append, List.map_map]
    rfl
  have hperm : ((shownOf (sortCanonical df) t k b).map (·.id) ++
      ((topkDropsOf (sortCanonical df) t k ++
        budgetDropsOf (sortCanonical df) t k b).map (·.id))).Perm
      ((afterThresholdOf (sortCanonical df) t).map (·.id)) := by
    rw [hids]
    exact hcands.map _
  have hmarg : ∀ d ∈ topkDropsOf (sortCanonical df) t k ++
      budgetDropsOf (sortCanonical df) t k b, 0 ≤ d.inclusion_margin := by
    intro d hd
    rcases List.mem_append.mp hd with h | h
    · exact topkDropsOf_margin_nonneg hsorted h
    · exact budgetDropsOf_margin_nonneg hsorted h
  rw [apply_constraints, constraint_pipeline.eq_def]
  simp only [buildTopkDrops_eq _ _ _ hk hid_s, buildBudgetDrops_eq _ _ _ _ hb hid_s]
  rw [assembleBundle_ok _ _ _ _ _ _ _ _ _ _ hperm (afterThresholdOf_nodup hid_s t) hmarg]
  rw [bundleOf]

@[simp] theorem bundleOf_all_candidates (df : List Candidate) (t : ℚ) (k b : Nat) :
    (bundleOf df t k b).all_candidates = sortCanonical df := rfl

@[simp] theorem bundleOf_after_threshold (df : List Candidate) (t : ℚ) (k b : Nat) :
    (bundleOf df t k b).after_threshold = afterThresholdOf (sortCanonical df) t := rfl

@[simp] theorem bundleOf_after_topk (df : List Candidate) (t : ℚ) (k b : Nat) :
    (bundleOf df t k b).after_topk = afterTopkOf (sortCanonical df) t k := rfl

@[simp] theorem bundleOf_shown (df : List Candidate) (t : ℚ) (k b : Nat) :
    (bundleOf df t k b).shown = shownOf (sortCanonical df) t k b := rfl

@[simp] theorem bundleOf_dropped (df : List Candidate) (t : ℚ) (k b : Nat) :
    (bundleOf df t k b).dropped =
      sortDropped (topkDropsOf (sortCanonical df) t k ++
        budgetDropsOf (sortCanonical df) t k b) := rfl

@[simp] theorem bundleOf_boundary (df : List Candidate) (t : ℚ) (k b : Nat) :
    (bundleOf df t k b).boundary_items =
      compute_boundary_items (afterThresholdOf (sortCanonical df) t)
        (afterTopkOf (sortCanonical df) t k) (shownOf (sortCanonical df) t k b)
        t k b (budgetActualOf (sortCanonical df) t k b) := rfl

theorem shown_dropped_ids_perm (df : List Candidate) (t : ℚ) (k b : Nat)
    (hk : 1 ≤ k) (hb : 1 ≤ b) :
    (((shownOf (sortCanonical df) t k b).map (·.id)) ++
      ((sortDropped (topkDropsOf (sortCanonical df) t k ++
        budgetDropsOf (sortCanonical df) t k b)).map (·.id))).Perm
      ((afterThresholdOf (sortCanonical df) t).map (·.id)) := by
  have hcands : (shownOf (sortCanonical df) t k b ++
      (topkDropsOf (sortCanonical df) t k ++
        budgetDropsOf (sortCanonical df) t k b).map (·.toCandidate)).Perm
      (afterThresholdOf (sortCanonical df) t) := by
    rw [List.map_append, topkDropsOf_cands _ _ _ hk, budgetDropsOf_cands _ _ _ _ hb]
    conv_rhs => rw [afterThreshold_decomp (sortCanonical df) t k b]
    exact (List.Perm.refl _).append List.perm_append_comm
  have hpermD : ((sortDropped (topkDropsOf (sortCanonical df) t k ++
      budgetDropsOf (sortCanonical df) t k b)).map (·.id)).Perm
      ((topkDropsOf (sortCanonical df) t k ++
        budgetDropsOf (sortCanonical df) t k b).map (·.id)) :=
    (sortDropped_perm _).map _
  refine ((List.Perm.refl _).append hpermD).trans ?_
  have hids : ((shownOf (sortCanonical df) t k b).map (·.id)) ++
      ((topkDropsOf (sortCanonical df) t k ++
        budgetDropsOf (sortCanonical df) t k b).map (·.id)) =
      ((shownOf (sortCanonical df) t k b) ++
        ((topkDropsOf (sortCanonical df) t k ++
          budgetDropsOf (sortCanonical df) t k b).map (·.toCandidate))).map (·.id) := by
    conv_rhs => rw [List.map_append, List.map_map]
    rfl
  rw [hids]
  exact hcands.map _

/-- C1: for every input population with unique, non-empty ids and parameters
threshold in [0,1], top_k >= 1, budget >= 1, the ResultBundle returned by
apply_constraints satisfies the partition invariants: the id set of shown
unioned with the id set of dropped equals the id set of after_threshold,
the intersection of the shown and dropped id sets is empty, and
|shown| + |dropped| = |after_threshold|. -/
theorem apply_constraints_partition (df : List Candidate) (t : ℚ) (k b : Nat)
    (hid : (df.map (·.id)).Nodup) (hne : ∀ c ∈ df, c.id ≠ "")
    (ht0 : 0 ≤ t) (ht1 : t ≤ 1) (hk : 1 ≤ k) (hb : 1 ≤ b) :
    ∃ bundle, apply_constraints df t k b = .ok bundle ∧
      (bundle.shown.map (·.id)).toFinset ∪ (bundle.dropped.map (·.id)).toFinset =
        (bundle.after_threshold.map (·.id)).toFinset ∧
      (bundle.shown.map (·.id)).toFinset ∩ (bundle.dropped.map (·.id)).toFinset = ∅ ∧
      bundle.shown.length + bundle.dropped.length = bundle.after_threshold.length := by
  refine ⟨bundleOf df t k b, apply_constraints_ok df t k b hk hb hid, ?_, ?_, ?_⟩
  all_goals
    have hP := shown_dropped_ids_perm df t k b hk hb
  · simp only [bundleOf_shown, bundleOf_dropped, bundleOf_after_threshold]
    rw [← List.toFinset_append]
    exact List.toFinset_eq_of_perm _ _ hP
  · have hid_s : ((sortCanonical df).map (·.id)).Nodup :=
      ((sortCanonical_perm df).map _).nodup_iff.mpr hid
    have hnd2 := hP.nodup_iff.mpr (afterThresholdOf_nodup hid_s t)
    obtain ⟨-, -, hdisj⟩ := List.nodup_append.mp hnd2
    simp only [bundleOf_shown, bundleOf_dropped]
    rw [Finset.eq_empty_iff_forall_not_mem]
    intro x hx
    rw [Finset.mem_inter, List.mem_toFinset, List.mem_toFinset] at hx
    exact hdisj hx.1 hx.2
  · have hlen := hP.length_eq
    simp only [List.length_append, List.length_map] at hlen
    simpa using hlen

/-- Witness for C1 at the literal 4-candidate population with
threshold 2/5, top_k 3, budget 2. -/
theorem apply_constraints_partition_witness :
    ((pop4.map (·.id)).Nodup ∧ (∀ c ∈ pop4, c.id ≠ "") ∧
      (0 : ℚ) ≤ mkRat 2 5 ∧ (mkRat 2 5 : ℚ) ≤ 1 ∧ 1 ≤ 3 ∧ 1 ≤ 2) ∧
    (∃ bundle, apply_constraints pop4 (mkRat 2 5) 3 2 = .ok bundle ∧
      (bundle.shown.map (·.id)).toFinset ∪ (bundle.dropped.map (·.id)).toFinset =
        (bundle.after_threshold.map (·.id)).toFinset ∧
      (bundle.shown.map (·.id)).toFinset ∩ (bundle.dropped.map (·.id)).toFinset = ∅ ∧
      bundle.shown.length + bundle.dropped.length = bundle.after_threshold.length) :=
  ⟨⟨by decide, by decide, by decide, by decide, by decide, by decide⟩,
    apply_constraints_partition pop4 (mkRat 2 5) 3 2 (by decide) (by decide)
      (by decide) (by decide) (by decide) (by decide)⟩

/-- C2: for every valid input, apply_constraints computes its three stages
as: after_threshold is the maximal order-preserving subsequence of the
canonically sorted population whose score is >= threshold (inclusive
boundary); after_topk is the first min(top_k, |after_threshold|) elements of
after_threshold; shown is the first min(budget, |after_topk|) elements of
after_topk; over-large top_k or budget is clamped via min(), never rejected,
and an empty after_threshold is a valid outcome, not an error (the call
returns ok for every threshold). -/
theorem apply_constraints_stages (df : List Candidate) (t : ℚ) (k b : Nat)
    (hid : (df.map (·.id)).Nodup) (hk : 1 ≤ k) (hb : 1 ≤ b) :
    ∃ bundle, apply_constraints df t k b = .ok bundle ∧
      bundle.all_candidates = sortCanonical df ∧
      bundle.after_threshold = bundle.all_candidates.filter (fun c => decide (t ≤ c.score)) ∧
      bundle.after_threshold.Sublist bundle.all_candidates ∧
      (∀ c ∈ bundle.all_candidates, c ∈ bundle.after_threshold ↔ t ≤ c.score) ∧
      bundle.after_topk = bundle.after_threshold.take (min k bundle.after_threshold.length) ∧
      bundle.shown = bundle.after_topk.take (min b bundle.after_topk.length) := by
  refine ⟨bundleOf df t k b, apply_constraints_ok df t k b hk hb hid,
    by rw [bundleOf_all_candidates],
    by rw [bundleOf_after_threshold, bundleOf_all_candidates, afterThresholdOf],
    by rw [bundleOf_after_threshold, bundleOf_all_candidates]; exact afterThresholdOf_sublist _ _,
    ?_,
    by rw [bundleOf_after_topk, bundleOf_after_threshold, afterTopkOf, kActualOf],
    by rw [bundleOf_shown, bundleOf_after_topk, shownOf, budgetActualOf]⟩
  rw [bundleOf_all_candidates, bundleOf_after_threshold]
  intro c hc
  rw [afterThresholdOf, List.mem_filter]
  constructor
  · intro hmem
    exact of_decide_eq_true hmem.2
  · intro hscore
    exact ⟨hc, decide_eq_true hscore⟩

/-- Witness for C2 at the literal 4-candidate population. -/
theorem apply_constraints_stages_witness :
    ((pop4.map (·.id)).Nodup ∧ 1 ≤ 3 ∧ 1 ≤ 2) ∧
    (∃ bundle, apply_constraints pop4 (mkRat 2 5) 3 2 = .ok bundle ∧
      bundle.all_candidates = sortCanonical pop4 ∧
      bundle.after_threshold =
        bundle.all_candidates.filter (fun c => decide (mkRat 2 5 ≤ c.score)) ∧
      bundle.after_threshold.Sublist bundle.all_candidates ∧
      (∀ c ∈ bundle.all_candidates, c ∈ bundle.after_threshold ↔ mkRat 2 5 ≤ c.score) ∧
      bundle.after_topk = bundle.after_threshold.take (min 3 bundle.after_threshold.length) ∧
      bundle.shown = bundle.after_topk.take (min 2 bundle.after_topk.length)) :=
  ⟨⟨by decide, by decide, by decide⟩,
    apply_constraints_stages pop4 (mkRat 2 5) 3 2 (by decide) (by decide) (by decide)⟩

/-- C3: on the literal 4-candidate population with ids/scores C0003:0.6,
C0001:0.5, C0002:0.5, C0004:0.4 and parameters threshold=0.4, top_k=3,
budget=2, apply_constraints returns canonical order
[C0003, C0001, C0002, C0004], after_threshold containing all 4, after_topk =
[C0003, C0001, C0002], shown = [C0003, C0001], and dropped = [C0002 with
capacity_stage budget and inclusion_margin 0, then C0004 with capacity_stage
top_k and inclusion_margin 1/10]. -/
theorem tie_breaking_scenario :
    (apply_constraints pop4 (mkRat 2 5) 3 2).map (fun r => r.all_candidates.map (·.id)) =
        .ok ["C0003", "C0001", "C0002", "C0004"] ∧
    (apply_constraints pop4 (mkRat 2 5) 3 2).map (fun r => r.after_threshold.map (·.id)) =
        .ok ["C0003", "C0001", "C0002", "C0004"] ∧
    (apply_constraints pop4 (mkRat 2 5) 3 2).map (fun r => r.after_topk.map (·.id)) =
        .ok ["C0003", "C0001", "C0002"] ∧
    (apply_constraints pop4 (mkRat 2 5) 3 2).map (fun r => r.shown.map (·.id)) =
        .ok ["C0003", "C0001"] ∧
    (apply_constraints pop4 (mkRat 2 5) 3 2).map (fun r =>
        r.dropped.map (fun d => (d.id, d.capacity_stage, d.inclusion_margin))) =
        .ok [("C0002", "budget", 0), ("C0004", "top_k", mkRat 1 10)] := by
  decide

/-- C4: for every valid input and every item in the returned dropped
sequence, inclusion_margin is >= 0 and equals exactly cutoff_score −
item.score, where the cutoff for an item with capacity_stage top_k is the
score of the last element of after_topk and the cutoff for an item with
capacity_stage budget is the score of the last element of shown. -/
theorem dropped_margin_correct (df : List Candidate) (t : ℚ) (k b : Nat)
    (hid : (df.map (·.id)).Nodup) (hk : 1 ≤ k) (hb : 1 ≤ b) :
    ∃ bundle, apply_constraints df t k b = .ok bundle ∧
      ∀ d ∈ bundle.dropped,
        0 ≤ d.inclusion_margin ∧
        ((d.capacity_stage = "top_k" ∧ ∃ cut, bundle.after_topk.getLast? = some cut ∧
            d.inclusion_margin = cut.score - d.score) ∨
         (d.capacity_stage = "budget" ∧ ∃ cut, bundle.shown.getLast? = some cut ∧
            d.inclusion_margin = cut.score - d.score)) := by
  refine ⟨bundleOf df t k b, apply_constraints_ok df t k b hk hb hid, ?_⟩
  intro d hd
  rw [bundleOf_dropped] at hd
  rw [bundleOf_after_topk, bundleOf_shown]
  have hd' := (sortDropped_perm _).subset hd
  have hsorted := sortCanonical_sorted df
  rcases List.mem_append.mp hd' with h | h
  · refine ⟨topkDropsOf_margin_nonneg hsorted h, .inl ?_⟩
    obtain ⟨hstage, -, cut, hcut, -, hmarg⟩ := topkDropsOf_mem h
    exact ⟨hstage, cut, hcut, by rw [hmarg, ratSub_eq]⟩
  · refine ⟨budgetDropsOf_margin_nonneg hsorted h, .inr ?_⟩
    obtain ⟨hstage, -, cut, hcut, -, hmarg⟩ := budgetDropsOf_mem h
    exact ⟨hstage, cut, hcut, by rw [hmarg, ratSub_eq]⟩

/-- Witness for C4 at the literal 4-candidate population. -/
theorem dropped_margin_correct_witness :
    ((pop4.map (·.id)).Nodup ∧ 1 ≤ 3 ∧ 1 ≤ 2) ∧
    (∃ bundle, apply_constraints pop4 (mkRat 2 5) 3 2 = .ok bundle ∧
      ∀ d ∈ bundle.dropped,
        0 ≤ d.inclusion_margin ∧
        ((d.capacity_stage = "top_k" ∧ ∃ cut, bundle.after_topk.getLast? = some cut ∧
            d.inclusion_margin = cut.score - d.score) ∨
         (d.capacity_stage = "budget" ∧ ∃ cut, bundle.shown.getLast? = some cut ∧
            d.inclusion_margin = cut.score - d.score))) :=
  ⟨⟨by decide, by decide, by decide⟩,
    dropped_margin_correct pop4 (mkRat 2 5) 3 2 (by decide) (by decide) (by decide)⟩

/-- C5: kth_item is present if and only if the CapacityGate is binding
(top_k < |after_threshold|) and after_topk is non-empty, in which case it is
the last element of after_topk (the same item used for the top_k-stage
margin cutoff); budget_item is present if and only if the BudgetGate is
binding (budget_actual < |after_topk|) and shown is non-empty, in which case
it is the last element of shown. -/
theorem boundary_items_correct (df : List Candidate) (t : ℚ) (k b : Nat)
    (hid : (df.map (·.id)).Nodup) (hk : 1 ≤ k) (hb : 1 ≤ b) :
    ∃ bundle, apply_constraints df t k b = .ok bundle ∧
      bundle.boundary_items.kth_item =
        (if k < bundle.after_threshold.length ∧ bundle.after_topk ≠ []
         then bundle.after_topk.getLast? else none) ∧
      bundle.boundary_items.budget_item =
        (if min b bundle.after_topk.length < bundle.after_topk.length ∧ bundle.shown ≠ []
         then bundle.shown.getLast? else none) := by
  refine ⟨bundleOf df t k b, apply_constraints_ok df t k b hk hb hid, ?_, ?_⟩
  · rw [bundleOf_boundary, bundleOf_after_threshold, bundleOf_after_topk,
      compute_boundary_items]
    have hiff : (0 < (afterTopkOf (sortCanonical df) t k).length ∧
        k < (afterThresholdOf (sortCanonical df) t).length) ↔
        (k < (afterThresholdOf (sortCanonical df) t).length ∧
          afterTopkOf (sortCanonical df) t k ≠ []) := by
      rw [List.length_pos]
      exact and_comm
    rw [if_congr hiff rfl rfl]
  · rw [bundleOf_boundary, bundleOf_after_topk, bundleOf_shown,
      compute_boundary_items]
    have hiff : (0 < (shownOf (sortCanonical df) t k b).length ∧
        ((shownOf (sortCanonical df) t k b).length =
            budgetActualOf (sortCanonical df) t k b ∧
          budgetActualOf (sortCanonical df) t k b <
            (afterTopkOf (sortCanonical df) t k).length)) ↔
        (min b (afterTopkOf (sortCanonical df) t k).length <
            (afterTopkOf (sortCanonical df) t k).length ∧
          shownOf (sortCanonical df) t k b ≠ []) := by
      rw [List.length_pos, shownOf_length]
      rw [show budgetActualOf (sortCanonical df) t k b =
        min b (afterTopkOf (sortCanonical df) t k).length from rfl]
      constructor
      · rintro ⟨hne, -, hlt⟩
        exact ⟨hlt, hne⟩
      · rintro ⟨hlt, hne⟩
        exact ⟨hne, rfl, hlt⟩
    rw [if_congr hiff rfl rfl]

/-- Witness for C5 at the literal 4-candidate population. -/
theorem boundary_items_correct_witness :
    ((pop4.map (·.id)).Nodup ∧ 1 ≤ 3 ∧ 1 ≤ 2) ∧
    (∃ bundle, apply_constraints pop4 (mkRat 2 5) 3 2 = .ok bundle ∧
      bundle.boundary_items.kth_item =
        (if 3 < bundle.after_threshold.length ∧ bundle.after_topk ≠ []
         then bundle.after_topk.getLast? else none) ∧
      bundle.boundary_items.budget_item =
        (if min 2 bundle.after_topk.length < bundle.after_topk.length ∧ bundle.shown ≠ []
         then bundle.shown.getLast? else none)) :=
  ⟨⟨by decide, by decide, by decide⟩,
    boundary_items_correct pop4 (mkRat 2 5) 3 2 (by decide) (by decide) (by decide)⟩

/-- C6 counterexample: a call whose threshold lies outside [0,1] (an input
contract violation) is not rejected: apply_constraints returns a successful
result bundle instead of an input-validation error. -/
theorem no_input_validation_cex :
    (apply_constraints pop4 (mkRat 3 2) 3 2).isOk = true := by decide

/-- C6 amended: apply_constraints performs no input validation.  A threshold
outside [0,1] is silently applied as a filter bound (the call succeeds); a
score outside (0,1) flows through the gates (the call succeeds); top_k = 0
(below the contract minimum 1) aborts with an IndexError raised inside the
top_k drop-building branch, not with a pre-gate validation error; and a
duplicated id surfaces as an internal AssertionError from the inline
invariant checks, not as an input-validation error naming the offending
field. -/
theorem no_input_validation_amended :
    (apply_constraints pop4 (mkRat 3 2) 3 2).isOk = true ∧
    (apply_constraints [testCandidate "C0009" 5] (mkRat 1 2) 1 1).isOk = true ∧
    apply_constraints pop4 (mkRat 2 5) 0 2 =
      .error (.indexError "single positional indexer is out-of-bounds") ∧
    apply_constraints dupPop 0 1 1 =
      .error (.assertionError "Count invariant violated") :=
  ⟨by decide, by decide, by decide, by decide⟩

/-- C7: shown is sorted by score descending with ties broken by id ascending
(inherited from the canonical order), dropped is sorted by
(inclusion_margin asc, score desc, id asc); when neither capacity stage is
binding, dropped is empty (each dropped row always carries the
dropped_reason, capacity_stage and inclusion_margin fields by
construction of DroppedItem). -/
theorem output_ordering (df : List Candidate) (t : ℚ) (k b : Nat)
    (hid : (df.map (·.id)).Nodup) (hk : 1 ≤ k) (hb : 1 ≤ b) :
    ∃ bundle, apply_constraints df t k b = .ok bundle ∧
      List.Pairwise canonOrder bundle.shown ∧
      List.Pairwise dropOrder bundle.dropped ∧
      ((¬ k < bundle.after_threshold.length) →
        (¬ min b bundle.after_topk.length < bundle.after_topk.length) →
        bundle.dropped = []) := by
  refine ⟨bundleOf df t k b, apply_constraints_ok df t k b hk hb hid, ?_, ?_, ?_⟩
  · rw [bundleOf_shown]
    exact shownOf_sorted (sortCanonical_sorted df) t k b
  · rw [bundleOf_dropped]
    exact sortDropped_sorted _
  · rw [bundleOf_after_threshold, bundleOf_after_topk, bundleOf_dropped]
    intro h1 h2
    have ht1 : topkDropsOf (sortCanonical df) t k = [] := by
      have hc := topkDropsOf_cands (sortCanonical df) t k hk
      have hdrop : (afterThresholdOf (sortCanonical df) t).drop
          (kActualOf (sortCanonical df) t k) = [] := by
        have hmin : kActualOf (sortCanonical df) t k =
            (afterThresholdOf (sortCanonical df) t).length :=
          Nat.min_eq_right (Nat.le_of_not_lt h1)
        rw [hmin, List.drop_length]
      rw [hdrop] at hc
      exact List.map_eq_nil.mp hc
    have ht2 : budgetDropsOf (sortCanonical df) t k b = [] := by
      have hc := budgetDropsOf_cands (sortCanonical df) t k b hb
      have hdrop : (afterTopkOf (sortCanonical df) t k).drop
          (budgetActualOf (sortCanonical df) t k b) = [] := by
        have hmin : budgetActualOf (sortCanonical df) t k b =
            (afterTopkOf (sortCanonical df) t k).length :=
          Nat.le_antisymm (Nat.min_le_right _ _) (Nat.le_of_not_lt h2)
        rw [hmin, List.drop_length]
      rw [hdrop] at hc
      exact List.map_eq_nil.mp hc
    rw [ht1, ht2]
    rfl

/-- Witness for C7 at the literal 4-candidate population. -/
theorem output_ordering_witness :
    ((pop4.map (·.id)).Nodup ∧ 1 ≤ 3 ∧ 1 ≤ 2) ∧
    (∃ bundle, apply_constraints pop4 (mkRat 2 5) 3 2 = .ok bundle ∧
      List.Pairwise canonOrder bundle.shown ∧
      List.Pairwise dropOrder bundle.dropped ∧
      ((¬ 3 < bundle.after_threshold.length) →
        (¬ min 2 bundle.after_topk.length < bundle.after_topk.length) →
        bundle.dropped = [])) :=
  ⟨⟨by decide, by decide, by decide⟩,
    output_ordering pop4 (mkRat 2 5) 3 2 (by decide) (by decide) (by decide)⟩

/-- C9: under the preconditions top_k >= 1 and budget >= 1, the unguarded
last-element accesses in the drop-building branches are safe: whenever the
top_k-drop branch runs (|after_topk| < |after_threshold|), after_topk is
non-empty, and whenever the budget-drop branch runs (|shown| < |after_topk|),
shown is non-empty; consequently neither branch returns an index error. -/
theorem drop_branches_safe (df : List Candidate) (t : ℚ) (k b : Nat)
    (hk : 1 ≤ k) (hb : 1 ≤ b) :
    ((afterTopkOf (sortCanonical df) t k).length <
        (afterThresholdOf (sortCanonical df) t).length →
      afterTopkOf (sortCanonical df) t k ≠ []) ∧
    ((shownOf (sortCanonical df) t k b).length <
        (afterTopkOf (sortCanonical df) t k).length →
      shownOf (sortCanonical df) t k b ≠ []) ∧
    (buildTopkDrops (afterThresholdOf (sortCanonical df) t)
        (afterTopkOf (sortCanonical df) t k)).isOk = true ∧
    (buildBudgetDrops (afterTopkOf (sortCanonical df) t k)
        (shownOf (sortCanonical df) t k b)).isOk = true := by
  have h1 : (afterTopkOf (sortCanonical df) t k).length <
      (afterThresholdOf (sortCanonical df) t).length →
      afterTopkOf (sortCanonical df) t k ≠ [] := by
    intro hlt hnil
    rw [afterTopkOf_eq_nil hk hnil, hnil] at hlt
    exact absurd hlt (lt_irrefl _)
  have h2 : (shownOf (sortCanonical df) t k b).length <
      (afterTopkOf (sortCanonical df) t k).length →
      shownOf (sortCanonical df) t k b ≠ [] := by
    intro hlt hnil
    rw [shownOf_eq_nil hb hnil, hnil] at hlt
    exact absurd hlt (lt_irrefl _)
  refine ⟨h1, h2, ?_, ?_⟩
  · rw [buildTopkDrops, buildCapacityDrops]
    by_cases hlt : (afterTopkOf (sortCanonical df) t k).length <
      (afterThresholdOf (sortCanonical df) t).length
    · rw [if_pos hlt]
      obtain ⟨cut, hcut⟩ : ∃ cut, (afterTopkOf (sortCanonical df) t k).getLast? = some cut := by
        cases hl : (afterTopkOf (sortCanonical df) t k).getLast? with
        | none => exact absurd (List.getLast?_eq_none_iff.mp hl) (h1 hlt)
        | some cut => exact ⟨cut, rfl⟩
      rw [hcut]
      rfl
    · rw [if_neg hlt]
      rfl
  · rw [buildBudgetDrops, buildCapacityDrops]
    by_cases hlt : (shownOf (sortCanonical df) t k b).length <
      (afterTopkOf (sortCanonical df) t k).length
    · rw [if_pos hlt]
      obtain ⟨cut, hcut⟩ : ∃ cut, (shownOf (sortCanonical df) t k b).getLast? = some cut := by
        cases hl : (shownOf (sortCanonical df) t k b).getLast? with
        | none => exact absurd (List.getLast?_eq_none_iff.mp hl) (h2 hlt)
        | some cut => exact ⟨cut, rfl⟩
      rw [hcut]
      rfl
    · rw [if_neg hlt]
      rfl

/-- Witness for C9 at the literal 4-candidate population. -/
theorem drop_branches_safe_witness :
    ((1 : Nat) ≤ 3 ∧ (1 : Nat) ≤ 2) ∧
    (((afterTopkOf (sortCanonical pop4) (mkRat 2 5) 3).length <
        (afterThresholdOf (sortCanonical pop4) (mkRat 2 5)).length →
      afterTopkOf (sortCanonical pop4) (mkRat 2 5) 3 ≠ []) ∧
    ((shownOf (sortCanonical pop4) (mkRat 2 5) 3 2).length <
        (afterTopkOf (sortCanonical pop4) (mkRat 2 5) 3).length →
      shownOf (sortCanonical pop4) (mkRat 2 5) 3 2 ≠ []) ∧
    (buildTopkDrops (afterThresholdOf (sortCanonical pop4) (mkRat 2 5))
        (afterTopkOf (sortCanonical pop4) (mkRat 2 5) 3)).isOk = true ∧
    (buildBudgetDrops (afterTopkOf (sortCanonical pop4) (mkRat 2 5) 3)
        (shownOf (sortCanonical pop4) (mkRat 2 5) 3 2)).isOk = true) :=
  ⟨⟨by decide, by decide⟩,
    drop_branches_safe pop4 (mkRat 2 5) 3 2 (by decide) (by decide)⟩

theorem sortCanonical_eq_of_perm {df₁ df₂ : List Candidate} (hperm : df₁.Perm df₂)
    (hid : (df₁.map (·.id)).Nodup) : sortCanonical df₁ = sortCanonical df₂ := by
  have hp : (sortCanonical df₁).Perm (sortCanonical df₂) :=
    (sortCanonical_perm df₁).trans (hperm.trans (sortCanonical_perm df₂).symm)
  have hs1 : List.Pairwise pairOrder ((sortCanonical df₁).map proj) :=
    List.Pairwise.map proj (fun a c h => (canonOrder_iff_pairOrder a c).mp h)
      (sortCanonical_sorted df₁)
  have hs2 : List.Pairwise pairOrder ((sortCanonical df₂).map proj) :=
    List.Pairwise.map proj (fun a c h => (canonOrder_iff_pairOrder a c).mp h)
      (sortCanonical_sorted df₂)
  have hmeq : (sortCanonical df₁).map proj = (sortCanonical df₂).map proj :=
    List.eq_of_perm_of_sorted (hp.map proj) hs1 hs2
  have hnd : ((sortCanonical df₁).map proj).Nodup := by
    have hid_s : ((sortCanonical df₁).map (·.id)).Nodup :=
      ((sortCanonical_perm df₁).map _).nodup_iff.mpr hid
    have hsplit : (sortCanonical df₁).map (·.id) =
        ((sortCanonical df₁).map proj).map Prod.snd := by
      rw [List.map_map]
      rfl
    rw [hsplit] at hid_s
    exact List.Nodup.of_map _ hid_s
  exact eq_of_perm_of_map_key_eq hp hnd hmeq

/-- C8: apply_constraints is deterministic: two calls with identical
arguments yield identical ResultBundles, and for a fixed set of candidates
(unique ids) the output is the same regardless of the order in which the
input collection presents them. -/
theorem apply_constraints_deterministic (df₁ df₂ : List Candidate) (t : ℚ) (k b : Nat)
    (hperm : df₁.Perm df₂) (hid : (df₁.map (·.id)).Nodup) :
    apply_constraints df₁ t k b = apply_constraints df₁ t k b ∧
    apply_constraints df₁ t k b = apply_constraints df₂ t k b := by
  refine ⟨rfl, ?_⟩
  rw [apply_constraints, apply_constraints, sortCanonical_eq_of_perm hperm hid]

/-- Witness for C8: the literal 4-candidate population in two input orders. -/
theorem apply_constraints_deterministic_witness :
    (pop4.Perm pop4shuffled ∧ (pop4.map (·.id)).Nodup) ∧
    (apply_constraints pop4 (mkRat 2 5) 3 2 = apply_constraints pop4 (mkRat 2 5) 3 2 ∧
     apply_constraints pop4 (mkRat 2 5) 3 2 = apply_constraints pop4shuffled (mkRat 2 5) 3 2) :=
  ⟨⟨by decide, by decide⟩,
    apply_constraints_deterministic pop4 pop4shuffled (mkRat 2 5) 3 2 (by decide) (by decide)⟩

theorem map_proj_filter_congr (t : ℚ) : ∀ {l₁ l₂ : List Candidate},
    l₁.map proj = l₂.map proj →
    (afterThresholdOf l₁ t).map proj = (afterThresholdOf l₂ t).map proj := by
  intro l₁
  induction l₁ with
  | nil =>
    intro l₂ h
    cases l₂ with
    | nil => rfl
    | cons b l₂ => simp at h
  | cons a l₁ ih =>
    intro l₂ h
    cases l₂ with
    | nil => simp at h
    | cons b l₂ =>
      simp only [List.map_cons, List.cons.injEq] at h
      obtain ⟨hab, h'⟩ := h
      have hscore : a.score = b.score := congrArg Prod.fst hab
      rw [afterThresholdOf, afterThresholdOf, List.filter_cons, List.filter_cons, hscore]
      have hrest := ih h'
      rw [afterThresholdOf, afterThresholdOf] at hrest
      cases hp : decide (t ≤ b.score) with
      | true =>
        simp only [hp, if_true, List.map_cons]
        rw [hab, hrest]
      | false =>
        simp only [hp, Bool.false_eq_true, if_false]
        exact hrest

theorem map_projD_mkDroppedItem (stage : String) (cut : Candidate) (l : List Candidate) :
    (l.map (mkDroppedItem stage cut)).map projD =
      (l.map proj).map (fun q => (ratSub cut.score q.1, q.1, q.2, stage, droppedReasonStr)) := by
  rw [List.map_map, List.map_map]
  rfl

theorem map_projD3_eq (l : List DroppedItem) :
    l.map projD3 = (l.map projD).map (fun v => (v.1, v.2.1, v.2.2.1)) := by
  rw [List.map_map]
  rfl

/-- C10: the partition computed by apply_constraints — which ids appear in
after_threshold, after_topk, shown, and dropped, in what order, with what
capacity_stage and inclusion_margin — depends only on each candidate's id
and score and the three parameters; all other candidate attributes never
influence the partition and are carried through to the output rows
unchanged (every output row is one of the input rows, all fields intact). -/
theorem partition_only_id_score (df₁ df₂ : List Candidate) (t : ℚ) (k b : Nat)
    (hmap : df₁.map proj = df₂.map proj) (hid : (df₁.map (·.id)).Nodup)
    (hk : 1 ≤ k) (hb : 1 ≤ b) :
    ∃ r₁ r₂, apply_constraints df₁ t k b = .ok r₁ ∧ apply_constraints df₂ t k b = .ok r₂ ∧
      r₁.all_candidates.map proj = r₂.all_candidates.map proj ∧
      r₁.after_threshold.map proj = r₂.after_threshold.map proj ∧
      r₁.after_topk.map proj = r₂.after_topk.map proj ∧
      r₁.shown.map proj = r₂.shown.map proj ∧
      r₁.dropped.map projD = r₂.dropped.map projD ∧
      (∀ c ∈ r₁.all_candidates, c ∈ df₁) ∧ (∀ c ∈ r₁.after_threshold, c ∈ df₁) ∧
      (∀ c ∈ r₁.after_topk, c ∈ df₁) ∧ (∀ c ∈ r₁.shown, c ∈ df₁) ∧
      (∀ d ∈ r₁.dropped, d.toCandidate ∈ df₁) := by
  have hid₂ : (df₂.map (·.id)).Nodup := by
    have e1 : df₁.map (·.id) = (df₁.map proj).map Prod.snd := by
      rw [List.map_map]
      rfl
    have e2 : df₂.map (·.id) = (df₂.map proj).map Prod.snd := by
      rw [List.map_map]
      rfl
    have hids_eq : df₁.map (·.id) = df₂.map (·.id) := by rw [e1, e2, hmap]
    rw [← hids_eq]
    exact hid
  have hA : (sortCanonical df₁).map proj = (sortCanonical df₂).map proj := by
    have p1 : ((sortCanonical df₁).map proj).Perm (df₁.map proj) :=
      (sortCanonical_perm df₁).map proj
    have p2 : ((sortCanonical df₂).map proj).Perm (df₂.map proj) :=
      (sortCanonical_perm df₂).map proj
    have hp : ((sortCanonical df₁).map proj).Perm ((sortCanonical df₂).map proj) :=
      p1.trans (hmap ▸ p2.symm)
    have hs1 : List.Pairwise pairOrder ((sortCanonical df₁).map proj) :=
      List.Pairwise.map proj (fun a c h => (canonOrder_iff_pairOrder a c).mp h)
        (sortCanonical_sorted df₁)
    have hs2 : List.Pairwise pairOrder ((sortCanonical df₂).map proj) :=
      List.Pairwise.map proj (fun a c h => (canonOrder_iff_pairOrder a c).mp h)
        (sortCanonical_sorted df₂)
    exact List.eq_of_perm_of_sorted hp hs1 hs2
  have hB : (afterThresholdOf (sortCanonical df₁) t).map proj =
      (afterThresholdOf (sortCanonical df₂) t).map proj :=
    map_proj_filter_congr t hA
  have hlenth : (afterThresholdOf (sortCanonical df₁) t).length =
      (afterThresholdOf (sortCanonical df₂) t).length := by
    have := congrArg List.length hB
    simpa using this
  have hkact : kActualOf (sortCanonical df₁) t k = kActualOf (sortCanonical df₂) t k := by
    rw [kActualOf, kActualOf, hlenth]
  have hC : (afterTopkOf (sortCanonical df₁) t k).map proj =
      (afterTopkOf (sortCanonical df₂) t k).map proj := by
    rw [afterTopkOf, afterTopkOf, List.map_take, List.map_take, hB, hkact]
  have hlenatk : (afterTopkOf (sortCanonical df₁) t k).length =
      (afterTopkOf (sortCanonical df₂) t k).length := by
    have := congrArg List.length hC
    simpa using this
  have hbact : budgetActualOf (sortCanonical df₁) t k b =
      budgetActualOf (sortCanonical df₂) t k b := by
    rw [budgetActualOf, budgetActualOf, hlenatk]
  have hD : (shownOf (sortCanonical df₁) t k b).map proj =
      (shownOf (sortCanonical df₂) t k b).map proj := by
    rw [shownOf, shownOf, List.map_take, List.map_take, hC, hbact]
  have hE1 : (topkDropsOf (sortCanonical df₁) t k).map projD =
      (topkDropsOf (sortCanonical df₂) t k).map projD := by
    have hlast : Option.map proj (afterTopkOf (sortCanonical df₁) t k).getLast? =
        Option.map proj (afterTopkOf (sortCanonical df₂) t k).getLast? := by
      rw [← List.getLast?_map, ← List.getLast?_map, hC]
    rw [topkDropsOf, topkDropsOf]
    cases h₁ : (afterTopkOf (sortCanonical df₁) t k).getLast? with
    | none =>
      cases h₂ : (afterTopkOf (sortCanonical df₂) t k).getLast? with
      | none => rfl
      | some c => rw [h₁, h₂] at hlast; simp at hlast
    | some c₁ =>
      cases h₂ : (afterTopkOf (sortCanonical df₂) t k).getLast? with
      | none => rw [h₁, h₂] at hlast; simp at hlast
      | some c₂ =>
        rw [h₁, h₂] at hlast
        have hpc : proj c₁ = proj c₂ := by simpa using hlast
        have hsc : c₁.score = c₂.score := congrArg Prod.fst hpc
        rw [map_projD_mkDroppedItem, map_projD_mkDroppedItem]
        have hdropth : ((afterThresholdOf (sortCanonical df₁) t).drop
            (kActualOf (sortCanonical df₁) t k)).map proj =
            ((afterThresholdOf (sortCanonical df₂) t).drop
              (kActualOf (sortCanonical df₂) t k)).map proj := by
          rw [List.map_drop, List.map_drop, hB, hkact]
        rw [hdropth, hsc]
  have hE2 : (budgetDropsOf (sortCanonical df₁) t k b).map projD =
      (budgetDropsOf (sortCanonical df₂) t k b).map projD := by
    have hlast : Option.map proj (shownOf (sortCanonical df₁) t k b).getLast? =
        Option.map proj (shownOf (sortCanonical df₂) t k b).getLast? := by
      rw [← List.getLast?_map, ← List.getLast?_map, hD]
    rw [budgetDropsOf, budgetDropsOf]
    cases h₁ : (shownOf (sortCanonical df₁) t k b).getLast? with
    | none =>
      cases h₂ : (shownOf (sortCanonical df₂) t k b).getLast? with
      | none => rfl
      | some c => rw [h₁, h₂] at hlast; simp at hlast
    | some c₁ =>
      cases h₂ : (shownOf (sortCanonical df₂) t k b).getLast? with
      | none => rw [h₁, h₂] at hlast; simp at hlast
      | some c₂ =>
        rw [h₁, h₂] at hlast
        have hpc : proj c₁ = proj c₂ := by simpa using hlast
        have hsc : c₁.score = c₂.score := congrArg Prod.fst hpc
        rw [map_projD_mkDroppedItem, map_projD_mkDroppedItem]
        have hdropatk : ((afterTopkOf (sortCanonical df₁) t k).drop
            (budgetActualOf (sortCanonical df₁) t k b)).map proj =
            ((afterTopkOf (sortCanonical df₂) t k).drop
              (budgetActualOf (sortCanonical df₂) t k b)).map proj := by
          rw [List.map_drop, List.map_drop, hC, hbact]
        rw [hdropatk, hsc]
  have hDD : ((topkDropsOf (sortCanonical df₁) t k ++
      budgetDropsOf (sortCanonical df₁) t k b).map projD) =
      ((topkDropsOf (sortCanonical df₂) t k ++
        budgetDropsOf (sortCanonical df₂) t k b).map projD) := by
    rw [List.map_append, List.map_append, hE1, hE2]
  have hF : ((sortDropped (topkDropsOf (sortCanonical df₁) t k ++
      budgetDropsOf (sortCanonical df₁) t k b)).map projD) =
      ((sortDropped (topkDropsOf (sortCanonical df₂) t k ++
        budgetDropsOf (sortCanonical df₂) t k b)).map projD) := by
    have hp : (((sortDropped (topkDropsOf (sortCanonical df₁) t k ++
        budgetDropsOf (sortCanonical df₁) t k b)).map projD)).Perm
        (((sortDropped (topkDropsOf (sortCanonical df₂) t k ++
          budgetDropsOf (sortCanonical df₂) t k b)).map projD)) :=
      ((sortDropped_perm _).map projD).trans (hDD ▸ ((sortDropped_perm _).map projD).symm)
    have hq : ((topkDropsOf (sortCanonical df₁) t k ++
        budgetDropsOf (sortCanonical df₁) t k b).map projD3) =
        ((topkDropsOf (sortCanonical df₂) t k ++
          budgetDropsOf (sortCanonical df₂) t k b).map projD3) := by
      rw [map_projD3_eq, map_projD3_eq, hDD]
    have hp3 : (((sortDropped (topkDropsOf (sortCanonical df₁) t k ++
        budgetDropsOf (sortCanonical df₁) t k b)).map projD3)).Perm
        (((sortDropped (topkDropsOf (sortCanonical df₂) t k ++
          budgetDropsOf (sortCanonical df₂) t k b)).map projD3)) :=
      ((sortDropped_perm _).map projD3).trans (hq ▸ ((sortDropped_perm _).map projD3).symm)
    have hs1 : List.Pairwise tripleOrder ((sortDropped (topkDropsOf (sortCanonical df₁) t k ++
        budgetDropsOf (sortCanonical df₁) t k b)).map projD3) :=
      List.Pairwise.map projD3 (fun a c h => (dropOrder_iff_tripleOrder a c).mp h)
        (sortDropped_sorted _)
    have hs2 : List.Pairwise tripleOrder ((sortDropped (topkDropsOf (sortCanonical df₂) t k ++
        budgetDropsOf (sortCanonical df₂) t k b)).map projD3) :=
      List.Pairwise.map projD3 (fun a c h => (dropOrder_iff_tripleOrder a c).mp h)
        (sortDropped_sorted _)
    have h3 : ((sortDropped (topkDropsOf (sortCanonical df₁) t k ++
        budgetDropsOf (sortCanonical df₁) t k b)).map projD3) =
        ((sortDropped (topkDropsOf (sortCanonical df₂) t k ++
          budgetDropsOf (sortCanonical df₂) t k b)).map projD3) :=
      List.eq_of_perm_of_sorted hp3 hs1 hs2
    have hid_s1 : ((sortCanonical df₁).map (·.id)).Nodup :=
      ((sortCanonical_perm df₁).map _).nodup_iff.mpr hid
    have hP := shown_dropped_ids_perm df₁ t k b hk hb
    have hnd_app := hP.nodup_iff.mpr (afterThresholdOf_nodup hid_s1 t)
    have hnd_dropped : (((sortDropped (topkDropsOf (sortCanonical df₁) t k ++
        budgetDropsOf (sortCanonical df₁) t k b)).map (·.id))).Nodup :=
      (List.nodup_append.mp hnd_app).2.1
    have hnd_projD3 : (((sortDropped (topkDropsOf (sortCanonical df₁) t k ++
        budgetDropsOf (sortCanonical df₁) t k b)).map projD3)).Nodup := by
      have e : ((sortDropped (topkDropsOf (sortCanonical df₁) t k ++
          budgetDropsOf (sortCanonical df₁) t k b)).map (·.id)) =
          (((sortDropped (topkDropsOf (sortCanonical df₁) t k ++
            budgetDropsOf (sortCanonical df₁) t k b)).map projD3)).map (fun v => v.2.2) := by
        rw [List.map_map]
        rfl
      rw [e] at hnd_dropped
      exact List.Nodup.of_map _ hnd_dropped
    have hnd_key : ((((sortDropped (topkDropsOf (sortCanonical df₁) t k ++
        budgetDropsOf (sortCanonical df₁) t k b)).map projD)).map
          (fun v => (v.1, v.2.1, v.2.2.1))).Nodup := by
      rw [← map_projD3_eq]
      exact hnd_projD3
    have hkey : ((((sortDropped (topkDropsOf (sortCanonical df₁) t k ++
        budgetDropsOf (sortCanonical df₁) t k b)).map projD)).map
          (fun v => (v.1, v.2.1, v.2.2.1))) =
        ((((sortDropped (topkDropsOf (sortCanonical df₂) t k ++
          budgetDropsOf (sortCanonical df₂) t k b)).map projD)).map
            (fun v => (v.1, v.2.1, v.2.2.1))) := by
      rw [← map_projD3_eq, ← map_projD3_eq]
      exact h3
    exact eq_of_perm_of_map_key_eq hp hnd_key hkey
  refine ⟨bundleOf df₁ t k b, bundleOf df₂ t k b,
    apply_constraints_ok df₁ t k b hk hb hid,
    apply_constraints_ok df₂ t k b hk hb hid₂,
    by rw [bundleOf_all_candidates, bundleOf_all_candidates]; exact hA,
    by rw [bundleOf_after_threshold, bundleOf_after_threshold]; exact hB,
    by rw [bundleOf_after_topk, bundleOf_after_topk]; exact hC,
    by rw [bundleOf_shown, bundleOf_shown]; exact hD,
    by rw [bundleOf_dropped, bundleOf_dropped]; exact hF,
    ?_, ?_, ?_, ?_, ?_⟩
  · rw [bundleOf_all_candidates]
    intro c hc
    exact (sortCanonical_perm df₁).subset hc
  · rw [bundleOf_after_threshold]
    intro c hc
    exact (sortCanonical_perm df₁).subset ((afterThresholdOf_sublist _ _).subset hc)
  · rw [bundleOf_after_topk]
    intro c hc
    exact (sortCanonical_perm df₁).subset ((afterThresholdOf_sublist _ _).subset
      ((afterTopkOf_sublist _ _ _).subset hc))
  · rw [bundleOf_shown]
    intro c hc
    exact (sortCanonical_perm df₁).subset ((afterThresholdOf_sublist _ _).subset
      ((afterTopkOf_sublist _ _ _).subset ((shownOf_sublist _ _ _ _).subset hc)))
  · rw [bundleOf_dropped]
    intro d hd
    have hd' := (sortDropped_perm _).subset hd
    rcases List.mem_append.mp hd' with h | h
    · obtain ⟨-, -, cut, -, hmem, -⟩ := topkDropsOf_mem h
      exact (sortCanonical_perm df₁).subset ((afterThresholdOf_sublist _ _).subset
        (List.drop_subset _ _ hmem))
    · obtain ⟨-, -, cut, -, hmem, -⟩ := budgetDropsOf_mem h
      exact (sortCanonical_perm df₁).subset ((afterThresholdOf_sublist _ _).subset
        ((afterTopkOf_sublist _ _ _).subset (List.drop_subset _ _ hmem)))

/-- Witness for C10: the literal 4-candidate population against a population
with identical ids and scores but different values in every other column. -/
theorem partition_only_id_score_witness :
    (pop4.map proj = pop4other.map proj ∧ (pop4.map (·.id)).Nodup ∧
      (1 : Nat) ≤ 3 ∧ (1 : Nat) ≤ 2) ∧
    (∃ r₁ r₂, apply_constraints pop4 (mkRat 2 5) 3 2 = .ok r₁ ∧
      apply_constraints pop4other (mkRat 2 5) 3 2 = .ok r₂ ∧
      r₁.all_candidates.map proj = r₂.all_candidates.map proj ∧
      r₁.after_threshold.map proj = r₂.after_threshold.map proj ∧
      r₁.after_topk.map proj = r₂.after_topk.map proj ∧
      r₁.shown.map proj = r₂.shown.map proj ∧
      r₁.dropped.map projD = r₂.dropped.map projD ∧
      (∀ c ∈ r₁.all_candidates, c ∈ pop4) ∧ (∀ c ∈ r₁.after_threshold, c ∈ pop4) ∧
      (∀ c ∈ r₁.after_topk, c ∈ pop4) ∧ (∀ c ∈ r₁.shown, c ∈ pop4) ∧
      (∀ d ∈ r₁.dropped, d.toCandidate ∈ pop4)) :=
  ⟨⟨by decide, by decide, by decide, by decide⟩,
    partition_only_id_score pop4 pop4other (mkRat 2 5) 3 2
      (by decide) (by decide) (by decide) (by decide)⟩
